import Mathlib

/-!
Verification of the session-history utility (scripts/claude-history.py).

The program reads a newline-delimited JSON log, and either
  - resolves a single session from a starting timestamp and a project path
    and prints its entries chronologically, or
  - prints all sessions of a project, grouped by session and ordered by
    each session`s earliest timestamp.

Shallow embedding conventions used below:
  - a parsed record (a JSON object viewed through `entry.get`) is the
    structure `Entry` with `Option` fields: `none` models both an absent
    field and an explicit JSON `null`, matching `dict.get` returning `None`;
  - `datetime.fromtimestamp(...).astimezone().strftime(...)` is an external
    pure function of the millisecond timestamp once the local timezone is
    fixed; it is passed in as a parameter `fmtTime : Int → String`;
  - `json.loads` is an external function `String → Option J` where `J` is a
    JSON value; `none` models `json.JSONDecodeError`;
  - Python `list.sort(key=f)` / `sorted(key=f)` are stable sorts by the key;
    they are embedded as `List.mergeSort` with the boolean relation
    `f a ≤ f b`, which is sorted and stable in exactly the same sense;
  - `print` calls accumulate into a `List String` of output lines.
-/

namespace ClaudeHistory

/-- A parsed history record, as accessed by the script: the four recognized
fields of the JSON object.  Each is optional; `none` models an absent field
(or JSON `null`), which is what Python`s `entry.get(key)` returns `None` for.
Additional JSON fields are never read by the script and are not modelled. -/
structure Entry where
  timestamp : Option Int
  display : Option String
  project : Option String
  sessionId : Option String
deriving Repr, DecidableEq

/-- The sort key used by both modes: `e.get("timestamp", 0)`. -/
def tsKey (e : Entry) : Int := e.timestamp.getD 0

/-- Boolean comparison handed to the stable sorts: compare by `tsKey`. -/
def tsLE (a b : Entry) : Bool := decide (tsKey a ≤ tsKey b)

/-- Embedding of `display.replace("\n", " ↵ ")`: Python`s `str.replace` with
a single-character pattern replaces every occurrence of that character,
leaving every other character unchanged, which is exactly this
character-wise `flatMap`. -/
def replaceNewlines (s : String) : String :=
  String.mk (s.data.flatMap (fun c => if c = '\n' then [' ', '↵', ' '] else [c]))

/-- Embedding of `format_entry` (source lines 36-46).  Returns `none` where
the Python function returns `None`.  `fmtTime` stands for the composition
`datetime.fromtimestamp(ts/1000, utc).astimezone().strftime("%Y-%m-%d %H:%M")`
at the fixed local timezone of the run. -/
def format_entry (fmtTime : Int → String) (e : Entry) : Option String :=
  match e.timestamp with
  | none => none
  | some ts_ms =>
    let display := e.display.getD ""
    if display = "" then none
    else some ("[" ++ fmtTime ts_ms ++ "] " ++ replaceNewlines display)

/-- The match test of the scan loop in `single_session_mode` (source lines
54-57): `ts is not None and ts >= start_ts_ms and proj == project_path`,
where `proj = entry.get("project", "")`. -/
def matchPred (start_ts_ms : Int) (project_path : String) (e : Entry) : Bool :=
  match e.timestamp with
  | none => false
  | some ts => decide (start_ts_ms ≤ ts) && decide (e.project.getD "" = project_path)

/-- The value of `target_session` after the scan loop (source lines 53-59):
the `sessionId` of the first matching record; `none` both when no record
matches and when the first matching record has no `sessionId`. -/
def targetSession (start_ts_ms : Int) (project_path : String)
    (entries : List Entry) : Option String :=
  (entries.find? (matchPred start_ts_ms project_path)).bind Entry.sessionId

/-- The list comprehension `[e for e in entries if e.get("sessionId") == target_session]`
(source lines 65-67), for a non-`None` `target_session`. -/
def session_entries (sid : String) (entries : List Entry) : List Entry :=
  entries.filter (fun e => decide (e.sessionId = some sid))

/-- The selection after `session_entries.sort(key=lambda e: e.get("timestamp", 0))`
(source line 68); `list.sort` is stable, embedded as a stable merge sort. -/
def sorted_session (sid : String) (entries : List Entry) : List Entry :=
  (session_entries sid entries).mergeSort tsLE

/-- Embedding of `single_session_mode` (source lines 49-73); the result is
the list of printed lines. -/
def single_session_mode (start_ts_ms : Int) (project_path : String)
    (fmtTime : Int → String) (entries : List Entry) : List String :=
  match targetSession start_ts_ms project_path entries with
  | none => []
  | some sid => (sorted_session sid entries).filterMap (format_entry fmtTime)

/-- The comprehension `[e for e in entries if e.get("project", "") == project_path]`
(source line 80). -/
def project_entries (project_path : String) (entries : List Entry) : List Entry :=
  entries.filter (fun e => decide (e.project.getD "" = project_path))

/-- One step of building the `sessions` dict (source lines 87-91): Python
dicts preserve key insertion order, so the dict is an association list; a new
key is appended at the end, an existing key has the entry appended to its
list. -/
def addEntry (gs : List (String × List Entry)) (sid : String) (e : Entry) :
    List (String × List Entry) :=
  match gs with
  | [] => [(sid, [e])]
  | (k, v) :: rest =>
    if k = sid then (k, v ++ [e]) :: rest
    else (k, v) :: addEntry rest sid e

/-- The `sessions` dict after the grouping loop (source lines 86-91), keyed
by `entry.get("sessionId", "")`, in key-first-seen order. -/
def groupBySession (l : List Entry) : List (String × List Entry) :=
  l.foldl (fun gs e => addEntry gs (e.sessionId.getD "") e) []

/-- The grouping of a project`s records produced by `all_sessions_mode`. -/
def sessions (project_path : String) (entries : List Entry) :
    List (String × List Entry) :=
  groupBySession (project_entries project_path entries)

/-- The groups after `sessions[sid].sort(key=lambda e: e.get("timestamp", 0))`
(source lines 94-95). -/
def sessionsSorted (project_path : String) (entries : List Entry) :
    List (String × List Entry) :=
  (sessions project_path entries).map (fun g => (g.1, g.2.mergeSort tsLE))

/-- The representative time of one group:
`min(e.get("timestamp", 0) for e in item[1])` (source line 100).  Groups
built by the loop are never empty, so the `getD 0` fallback is never taken on
the values this is applied to. -/
def minKey (g : String × List Entry) : Int :=
  ((g.2.map tsKey).min?).getD 0

/-- Boolean comparison handed to `sorted(sessions.items(), key=...)`. -/
def groupLE (a b : String × List Entry) : Bool := decide (minKey a ≤ minKey b)

/-- `sorted_sessions` (source lines 98-101): the groups, each internally
sorted, stably sorted by representative time; `sorted` is stable, so ties
keep the dict`s key-insertion (first-seen) order. -/
def sorted_sessions (project_path : String) (entries : List Entry) :
    List (String × List Entry) :=
  (sessionsSorted project_path entries).mergeSort groupLE

/-- Embedding of `all_sessions_mode` (source lines 76-108); the result is
the list of printed lines.  The early `return` on an empty project
selection (source lines 82-83) is kept as the `if`. -/
def all_sessions_mode (project_path : String) (fmtTime : Int → String)
    (entries : List Entry) : List String :=
  if (project_entries project_path entries).isEmpty then []
  else
    (sorted_sessions project_path entries).flatMap
      (fun g => g.2.filterMap (format_entry fmtTime))

/-- A JSON value, as returned by `json.loads`.  The loader appends whatever
value a line parses to — it never checks that the value is an object. -/
inductive J where
  | null
  | bool (b : Bool)
  | num (n : Int)
  | str (s : String)
  | arr (elems : List J)
  | obj (fields : List (String × J))

/-- Embedding of Python`s `line.strip()`: drop whitespace characters from
both ends, character-wise. -/
def strip (s : String) : String :=
  String.mk (((s.data.dropWhile Char.isWhitespace).reverse.dropWhile
    Char.isWhitespace).reverse)

/-- Embedding of `load_entries` (source lines 18-33).  `file` is `none` when
`os.path.exists` is false, otherwise the list of lines of the file.
`json_loads` models `json.loads`, returning `none` on `json.JSONDecodeError`;
every successfully parsed value is appended, whatever its shape. -/
def load_entries (json_loads : String → Option J)
    (file : Option (List String)) : List J :=
  match file with
  | none => []
  | some lines =>
    lines.foldl
      (fun entries line =>
        let stripped := strip line
        if stripped = "" then entries
        else
          match json_loads stripped with
          | some entry => entries ++ [entry]
          | none => entries)
      []

/-- Observable outcome of one run of `main`: the process exit code, the
lines printed to the error stream, and the lines printed to standard
output. -/
structure MainOutcome where
  exitCode : Nat
  errLines : List String
  outLines : List String
deriving Repr, DecidableEq

/-- The usage message printed when no argument is given (source lines
113-118). -/
def usageMsg : String :=
  "Usage:\n  claude-history.py <start_timestamp_ms> <project_path>\n  claude-history.py --all <project_path>"

/-- Embedding of `main` (source lines 111-142) over the user-supplied
arguments `argv = sys.argv[1:]`.  `int_of` models Python`s `int(...)`
conversion, `none` standing for `ValueError`; `entries` is the value of
`load_entries()`.  Branch order follows the source: the length checks come
before the `int` conversion. -/
def main (int_of : String → Option Int) (fmtTime : Int → String)
    (argv : List String) (entries : List Entry) : MainOutcome :=
  match argv with
  | [] => { exitCode := 1, errLines := [usageMsg], outLines := [] }
  | arg1 :: rest =>
    if arg1 = "--all" then
      match rest with
      | [] =>
        { exitCode := 1, errLines := ["Error: --all requires a project_path"],
          outLines := [] }
      | project_path :: _ =>
        { exitCode := 0, errLines := [],
          outLines := all_sessions_mode project_path fmtTime entries }
    else
      match rest with
      | [] =>
        { exitCode := 1,
          errLines := ["Error: single-session mode requires <start_timestamp_ms> <project_path>"],
          outLines := [] }
      | project_path :: _ =>
        match int_of arg1 with
        | none =>
          { exitCode := 1,
            errLines := ["Error: start_timestamp_ms must be an integer"],
            outLines := [] }
        | some start_ts_ms =>
          { exitCode := 0, errLines := [],
            outLines := single_session_mode start_ts_ms project_path fmtTime entries }

/-- State-passing translation of `single_session_mode`: the first component
threads the caller-visible `entries` list object.  The comprehension at
source lines 65-67 builds a fresh list bound to `session_entries`; the
in-place `session_entries.sort(...)` at line 68 rebinds that fresh list to
its sorted value; the name `entries` is never assigned or sorted. -/
def single_session_mode_state (start_ts_ms : Int) (project_path : String)
    (fmtTime : Int → String) (entries : List Entry) :
    List Entry × List String :=
  match targetSession start_ts_ms project_path entries with
  | none => (entries, [])
  | some sid =>
    let selected := entries.filter (fun e => decide (e.sessionId = some sid))
    let selected := selected.mergeSort tsLE
    (entries, selected.filterMap (format_entry fmtTime))

/-- State-passing translation of `all_sessions_mode`: the first component
threads the caller-visible `entries` list object.  The comprehension at
source line 80 builds a fresh list; the grouping dict holds fresh per-key
lists, and `sessions[sid].sort(...)` at line 95 sorts those; `entries`
itself is never assigned or sorted. -/
def all_sessions_mode_state (project_path : String) (fmtTime : Int → String)
    (entries : List Entry) : List Entry × List String :=
  let proj_sel := entries.filter (fun e => decide (e.project.getD "" = project_path))
  if proj_sel.isEmpty then (entries, [])
  else
    let groups := groupBySession proj_sel
    let groups := groups.map (fun g => (g.1, g.2.mergeSort tsLE))
    let groups := groups.mergeSort groupLE
    (entries, groups.flatMap (fun g => g.2.filterMap (format_entry fmtTime)))

/-! ## Helper lemmas -/

theorem tsLE_trans : ∀ (a b c : Entry), tsLE a b → tsLE b c → tsLE a c := by
  intro a b c hab hbc
  simp only [tsLE, decide_eq_true_eq] at *
  omega

theorem tsLE_total : ∀ (a b : Entry), (tsLE a b || tsLE b a) = true := by
  intro a b
  simp only [tsLE, Bool.or_eq_true, decide_eq_true_eq]
  omega

theorem groupLE_trans : ∀ (a b c : String × List Entry),
    groupLE a b → groupLE b c → groupLE a c := by
  intro a b c hab hbc
  simp only [groupLE, decide_eq_true_eq] at *
  omega

theorem groupLE_total : ∀ (a b : String × List Entry),
    (groupLE a b || groupLE b a) = true := by
  intro a b
  simp only [groupLE, Bool.or_eq_true, decide_eq_true_eq]
  omega

theorem matchPred_iff (start_ts_ms : Int) (project_path : String) (e : Entry) :
    matchPred start_ts_ms project_path e = true ↔
      ∃ ts, e.timestamp = some ts ∧ start_ts_ms ≤ ts ∧
        e.project.getD "" = project_path := by
  cases h : e.timestamp with
  | none => simp [matchPred, h]
  | some ts => simp [matchPred, h, and_assoc]

theorem find?_append_first {α : Type} (p : α → Bool) (pre : List α) (e : α)
    (post : List α) (hpre : ∀ x ∈ pre, p x = false) (he : p e = true) :
    (pre ++ e :: post).find? p = some e := by
  induction pre with
  | nil => simpa using List.find?_cons_of_pos post he
  | cons a as ih =>
    have ha : p a = false := hpre a (List.mem_cons_self a as)
    rw [List.cons_append, List.find?_cons_of_neg _ (by simp [ha])]
    exact ih (fun x hx => hpre x (List.mem_cons_of_mem a hx))

/-! ## Claim theorems -/

/-- C1: in single-session mode the target session is determined by scanning
records in loaded order and taking the `sessionId` of the first record whose
`timestamp` is present and at least the start timestamp and whose `project`
(defaulting to `""` when absent, per the data model) equals the given
project path exactly; if no record satisfies both conditions the mode
produces no output at all.  The first conjunct ties the code`s scan test to
exactly that condition; the last conjunct shows the result depends only on
the first satisfying record, so scanning effectively stops there. -/
theorem single_session_first_match_spec (start_ts_ms : Int)
    (project_path : String) (fmtTime : Int → String) (entries : List Entry) :
    (∀ e : Entry, matchPred start_ts_ms project_path e = true ↔
        ∃ ts, e.timestamp = some ts ∧ start_ts_ms ≤ ts ∧
          e.project.getD "" = project_path) ∧
    ((∀ e ∈ entries, matchPred start_ts_ms project_path e = false) →
      single_session_mode start_ts_ms project_path fmtTime entries = []) ∧
    (∀ pre e post, entries = pre ++ e :: post →
      (∀ x ∈ pre, matchPred start_ts_ms project_path x = false) →
      matchPred start_ts_ms project_path e = true →
      targetSession start_ts_ms project_path entries = e.sessionId) := by
  refine ⟨fun e => matchPred_iff start_ts_ms project_path e, ?_, ?_⟩
  · intro h
    have hnone : entries.find? (matchPred start_ts_ms project_path) = none :=
      List.find?_eq_none.mpr (fun x hx => by simp [h x hx])
    simp [single_session_mode, targetSession, hnone]
  · intro pre e post heq hpre he
    subst heq
    simp [targetSession, find?_append_first _ pre e post hpre he]

/-- The constant time formatter used in concrete witnesses. -/
def fmtT : Int → String := fun _ => "T"

/-- The record of spec Scenario 2 and 3. -/
def entScn : Entry :=
  { timestamp := some 1700000000000, display := some "hi", project := some "/p",
    sessionId := some "s1" }

/-- A record of another project, earlier in the file. -/
def entA : Entry :=
  { timestamp := some 100, display := some "a", project := some "/q",
    sessionId := some "s1" }

/-- A matching record, later in the file. -/
def entB : Entry :=
  { timestamp := some 200, display := some "b", project := some "/p",
    sessionId := some "s2" }

/-- Witness for C1: spec Scenario 3 (start timestamp after the only record,
nothing printed), and a first-match resolution skipping a record of another
project. -/
theorem single_session_first_match_spec_witness :
    single_session_mode 1700000000001 "/p" fmtT [entScn] = [] ∧
    targetSession 150 "/p" [entA, entB] = entB.sessionId :=
  ⟨(single_session_first_match_spec 1700000000001 "/p" fmtT [entScn]).2.1
      (by decide),
   (single_session_first_match_spec 150 "/p" fmtT [entA, entB]).2.2 [entA]
      entB [] rfl (by decide) (by decide)⟩

/-- C4: the formatter yields nothing exactly when `timestamp` is absent or
`display` is absent or empty; otherwise it yields
`[<time>] <display with newlines replaced>`, where the replacement turns
every newline into space, ↵, space and alters no other character
(stated by the character-level characterization), so the result holds no
newline character. -/
theorem format_entry_spec (fmtTime : Int → String) (e : Entry) :
    (format_entry fmtTime e = none ↔
      e.timestamp = none ∨ e.display.getD "" = "") ∧
    (∀ ts, e.timestamp = some ts → e.display.getD "" ≠ "" →
      format_entry fmtTime e =
        some ("[" ++ fmtTime ts ++ "] " ++ replaceNewlines (e.display.getD ""))) ∧
    (∀ s : String, (replaceNewlines s).data =
      s.data.flatMap (fun c => if c = '\n' then [' ', '↵', ' '] else [c])) ∧
    (∀ s : String, '\n' ∉ (replaceNewlines s).data) := by
  refine ⟨?_, ?_, fun s => rfl, ?_⟩
  · cases h : e.timestamp with
    | none => simp [format_entry, h]
    | some ts =>
      simp only [format_entry, h]
      by_cases hd : e.display.getD "" = "" <;> simp [hd]
  · intro ts hts hd
    simp [format_entry, hts, hd]
  · intro s hmem
    rw [show (replaceNewlines s).data =
      s.data.flatMap (fun c => if c = '\n' then [' ', '↵', ' '] else [c])
      from rfl] at hmem
    rw [List.mem_flatMap] at hmem
    obtain ⟨c, _, hc⟩ := hmem
    by_cases h : c = '\n'
    · rw [if_pos h] at hc
      exact absurd hc (by decide)
    · rw [if_neg h] at hc
      exact h (List.mem_singleton.mp hc).symm

/-- A record whose display text spans two lines. -/
def entNl : Entry :=
  { timestamp := some 5, display := some "a\nb", project := none,
    sessionId := none }

/-- Witness for C4: a two-line display is formatted with its newline
replaced. -/
theorem format_entry_spec_witness :
    format_entry fmtT entNl =
      some ("[" ++ fmtT 5 ++ "] " ++ replaceNewlines "a\nb") :=
  (format_entry_spec fmtT entNl).2.1 5 rfl (by decide)

/-- C9: a record whose `timestamp` is present with value 0 is treated as
having a timestamp — the formatter formats it and the resolver accepts it
whenever the start timestamp is at most 0 — while a missing (or null)
`timestamp` suppresses formatting and disqualifies the record from
matching. -/
theorem zero_timestamp_spec (fmtTime : Int → String) (start_ts_ms : Int)
    (p d : String) (sid : Option String) :
    (d ≠ "" →
      format_entry fmtTime (Entry.mk (some 0) (some d) (some p) sid) ≠ none) ∧
    (start_ts_ms ≤ 0 →
      matchPred start_ts_ms p (Entry.mk (some 0) (some d) (some p) sid) = true) ∧
    (∀ e : Entry, e.timestamp = none →
      format_entry fmtTime e = none ∧ matchPred start_ts_ms p e = false) := by
  refine ⟨?_, ?_, ?_⟩
  · intro hd
    simp [format_entry, hd]
  · intro hs
    simp [matchPred, hs]
  · intro e he
    simp [format_entry, matchPred, he]

/-- Witness for C9: timestamp 0 with a negative start timestamp formats and
matches. -/
theorem zero_timestamp_spec_witness :
    format_entry fmtT (Entry.mk (some 0) (some "hi") (some "/p") none) ≠ none ∧
    matchPred (-5) "/p" (Entry.mk (some 0) (some "hi") (some "/p") none) = true :=
  ⟨(zero_timestamp_spec fmtT (-5) "/p" "hi" none).1 (by decide),
   (zero_timestamp_spec fmtT (-5) "/p" "hi" none).2.1 (by decide)⟩

/-- C7: single-session mode is a deterministic pure function of the loaded
log records, the two arguments, and the timezone-fixed time formatter: two
runs on identical inputs produce identical output.  The embedding reads no
other state, mirroring the source, whose pipeline consults only the log
file, `sys.argv`, and the local timezone. -/
theorem single_session_deterministic (e1 e2 : List Entry) (s1 s2 : Int)
    (p1 p2 : String) (f1 f2 : Int → String)
    (he : e1 = e2) (hs : s1 = s2) (hp : p1 = p2) (hf : f1 = f2) :
    single_session_mode s1 p1 f1 e1 = single_session_mode s2 p2 f2 e2 := by
  subst he
  subst hs
  subst hp
  subst hf
  rfl

/-- Witness for C7: two identical concrete runs agree. -/
theorem single_session_deterministic_witness :
    single_session_mode 0 "/p" fmtT [entScn] =
      single_session_mode 0 "/p" fmtT [entScn] :=
  single_session_deterministic [entScn] [entScn] 0 0 "/p" "/p" fmtT fmtT
    rfl rfl rfl rfl

/-- C10: neither mode mutates the loaded record list: in the state-passing
translation of each mode (which threads the caller-visible `entries`
object), the final list is the initial one, and both modes compute the same
printed lines as the pure embeddings — the sorts act on freshly built
lists. -/
theorem modes_preserve_entries (start_ts_ms : Int) (project_path : String)
    (fmtTime : Int → String) (entries : List Entry) :
    ((single_session_mode_state start_ts_ms project_path fmtTime entries).1 =
        entries ∧
      (single_session_mode_state start_ts_ms project_path fmtTime entries).2 =
        single_session_mode start_ts_ms project_path fmtTime entries) ∧
    ((all_sessions_mode_state project_path fmtTime entries).1 = entries ∧
      (all_sessions_mode_state project_path fmtTime entries).2 =
        all_sessions_mode project_path fmtTime entries) := by
  refine ⟨⟨?_, ?_⟩, ?_, ?_⟩
  · unfold single_session_mode_state
    cases targetSession start_ts_ms project_path entries <;> rfl
  · unfold single_session_mode_state single_session_mode
    cases targetSession start_ts_ms project_path entries <;> rfl
  · by_cases h :
      (entries.filter (fun e => decide (e.project.getD "" = project_path))).isEmpty <;>
        simp [all_sessions_mode_state, h]
  · by_cases h :
      (entries.filter (fun e => decide (e.project.getD "" = project_path))).isEmpty <;>
        simp [all_sessions_mode_state, all_sessions_mode, project_entries,
          sorted_sessions, sessionsSorted, sessions, h]

/-- A record matching project `/p` from timestamp 0, with no `sessionId`
field. -/
def entNoSid : Entry :=
  { timestamp := some 5, display := some "hi", project := some "/p",
    sessionId := none }

/-- C2 counterexample: the scan finds the matching record `entNoSid`, that
record carries its own (absent) `sessionId` and formats to the non-empty
line `[T] hi`, yet the mode prints nothing — `target_session` is `None`
when the matching record has no `sessionId`, and the code returns before
selecting anything. -/
theorem single_session_missing_sid_cex :
    List.find? (matchPred 0 "/p") [entNoSid] = some entNoSid ∧
    format_entry fmtT entNoSid = some "[T] hi" ∧
    single_session_mode 0 "/p" fmtT [entNoSid] = [] := by
  refine ⟨rfl, rfl, rfl⟩

/-- C2 (amended): whenever the scan finds a matching record whose
`sessionId` is present — equivalently, whenever `target_session` is a
string `sid` — every loaded record carrying that `sessionId` (regardless of
its `project`) is selected, the selection is stably sorted ascending by
timestamp (a missing timestamp sorting as 0), each selected record is
formatted, and every non-empty formatted line is printed in that sorted
order. -/
theorem single_session_output_spec (start_ts_ms : Int) (project_path : String)
    (fmtTime : Int → String) (entries : List Entry) (sid : String)
    (h : targetSession start_ts_ms project_path entries = some sid) :
    single_session_mode start_ts_ms project_path fmtTime entries =
      (sorted_session sid entries).filterMap (format_entry fmtTime) ∧
    (sorted_session sid entries).Perm (session_entries sid entries) ∧
    (sorted_session sid entries).Pairwise (fun a b => tsKey a ≤ tsKey b) ∧
    (∀ a b, tsKey a ≤ tsKey b →
      List.Sublist [a, b] (session_entries sid entries) →
      List.Sublist [a, b] (sorted_session sid entries)) := by
  refine ⟨?_, ?_, ?_, ?_⟩
  · simp [single_session_mode, h]
  · exact List.mergeSort_perm (session_entries sid entries) tsLE
  · exact (List.sorted_mergeSort tsLE_trans tsLE_total
      (session_entries sid entries)).imp
      (fun hab => by simpa [tsLE] using hab)
  · intro a b hab hsub
    exact List.pair_sublist_mergeSort tsLE_trans tsLE_total
      (by simpa [tsLE] using hab) hsub

/-- A second record of session `s2`, another project, earlier timestamp. -/
def entB2 : Entry :=
  { timestamp := some 150, display := some "b2", project := some "/q",
    sessionId := some "s2" }

/-- Witness for C2: with the log `[entB2, entB]` and start 160, the first
match is `entB` (project `/p`), whose session is `s2`; the output is the
formatted, timestamp-sorted selection of both `s2` records. -/
theorem single_session_output_spec_witness :
    single_session_mode 160 "/p" fmtT [entB2, entB] =
      (sorted_session "s2" [entB2, entB]).filterMap (format_entry fmtT) ∧
    (sorted_session "s2" [entB2, entB]).Perm
      (session_entries "s2" [entB2, entB]) ∧
    (sorted_session "s2" [entB2, entB]).Pairwise
      (fun a b => tsKey a ≤ tsKey b) ∧
    (∀ a b, tsKey a ≤ tsKey b →
      List.Sublist [a, b] (session_entries "s2" [entB2, entB]) →
      List.Sublist [a, b] (sorted_session "s2" [entB2, entB])) :=
  single_session_output_spec 160 "/p" fmtT [entB2, entB] "s2" (by decide)

/-- The invalid-invocation condition exactly as the claim states it: fewer
than 2 command-line arguments, or a first argument that is neither the
literal `--all` nor a parseable integer. -/
def invalidInvocation (int_of : String → Option Int) (argv : List String) :
    Bool :=
  decide (argv.length < 2) ||
    match argv.head? with
    | none => false
    | some a => !decide (a = "--all") && (int_of a).isNone

/-- C6: the entry point exits with code 1 and a message on the error stream
exactly when the invocation is invalid in the sense of `invalidInvocation`,
and exits with code 0 otherwise; the exit code never depends on the loaded
records, so an empty result is not distinguished from a non-empty one. -/
theorem main_exit_spec (int_of : String → Option Int) (fmtTime : Int → String)
    (argv : List String) (entries : List Entry) :
    ((main int_of fmtTime argv entries).exitCode =
      if invalidInvocation int_of argv then 1 else 0) ∧
    ((main int_of fmtTime argv entries).errLines ≠ [] ↔
      invalidInvocation int_of argv = true) ∧
    (∀ more : List Entry, (main int_of fmtTime argv more).exitCode =
      (main int_of fmtTime argv entries).exitCode) := by
  rcases argv with _ | ⟨a, _ | ⟨p, rest⟩⟩
  · simp [main, invalidInvocation]
  · by_cases h : a = "--all" <;> simp [main, invalidInvocation, h]
  · by_cases h : a = "--all"
    · simp [main, invalidInvocation, h]
      rw [if_neg (by omega)]
    · cases hi : int_of a <;>
        simp [main, invalidInvocation, h, hi]
      rw [if_neg (by omega)]

/-! ## Grouping machinery for the all-sessions aggregator -/

/-- All records of `l` whose `sessionId` (default `""`) equals `k`: the
intended content of the group keyed `k`. -/
def gather (l : List Entry) (k : String) : List Entry :=
  l.filter (fun e => decide (e.sessionId.getD "" = k))

/-- Key-insertion order of a Python dict: append a key at the end when it is
new. -/
def insertKey (ks : List String) (k : String) : List String :=
  if k ∈ ks then ks else ks ++ [k]

/-- The session keys of `l` in first-seen order. -/
def firstKeys (l : List Entry) : List String :=
  l.foldl (fun ks e => insertKey ks (e.sessionId.getD "")) []

theorem firstKeys_append (l : List Entry) (e : Entry) :
    firstKeys (l ++ [e]) = insertKey (firstKeys l) (e.sessionId.getD "") := by
  simp [firstKeys, List.foldl_append]

theorem groupBySession_append (l : List Entry) (e : Entry) :
    groupBySession (l ++ [e]) =
      addEntry (groupBySession l) (e.sessionId.getD "") e := by
  simp [groupBySession, List.foldl_append]

theorem mem_insertKey {ks : List String} {k a : String} :
    a ∈ insertKey ks k ↔ a ∈ ks ∨ a = k := by
  by_cases h : k ∈ ks
  · simp only [insertKey, if_pos h]
    exact ⟨Or.inl, fun x => x.elim id (fun hk => hk ▸ h)⟩
  · simp [insertKey, if_neg h]

theorem mem_firstKeys (l : List Entry) (k : String) :
    k ∈ firstKeys l ↔ ∃ e ∈ l, e.sessionId.getD "" = k := by
  induction l using List.reverseRecOn with
  | nil => simp [firstKeys]
  | append_singleton l e ih =>
    rw [firstKeys_append, mem_insertKey, ih]
    constructor
    · rintro (⟨x, hx, hxk⟩ | hk)
      · exact ⟨x, by simp [hx], hxk⟩
      · exact ⟨e, by simp, hk.symm⟩
    · rintro ⟨x, hx, hxk⟩
      rcases List.mem_append.mp hx with hx1 | hx1
      · exact Or.inl ⟨x, hx1, hxk⟩
      · rw [List.mem_singleton.mp hx1] at hxk
        exact Or.inr hxk.symm

theorem firstKeys_nodup (l : List Entry) : (firstKeys l).Nodup := by
  induction l using List.reverseRecOn with
  | nil => simp [firstKeys]
  | append_singleton l e ih =>
    rw [firstKeys_append]
    unfold insertKey
    by_cases h : (e.sessionId.getD "") ∈ firstKeys l
    · simpa [h] using ih
    · rw [if_neg h]
      refine List.Nodup.append ih (List.nodup_singleton _) ?_
      intro a ha hb
      rw [List.mem_singleton] at hb
      exact h (hb ▸ ha)

theorem gather_append (l : List Entry) (e : Entry) (k : String) :
    gather (l ++ [e]) k =
      gather l k ++ (if e.sessionId.getD "" = k then [e] else []) := by
  by_cases h : e.sessionId.getD "" = k <;>
    simp [gather, List.filter_append, h]

theorem gather_eq_nil_of_not_mem (l : List Entry) (k : String)
    (h : k ∉ firstKeys l) : gather l k = [] := by
  rw [gather, List.filter_eq_nil_iff]
  intro e he
  simp only [decide_eq_true_eq]
  intro hk
  exact h ((mem_firstKeys l k).mpr ⟨e, he, hk⟩)

theorem addEntry_map_gather (l : List Entry) (e : Entry) :
    ∀ ks : List String, ks.Nodup →
    (e.sessionId.getD "" ∉ ks → gather l (e.sessionId.getD "") = []) →
    addEntry (ks.map (fun k => (k, gather l k))) (e.sessionId.getD "") e =
      (insertKey ks (e.sessionId.getD "")).map
        (fun k => (k, gather (l ++ [e]) k)) := by
  intro ks
  induction ks with
  | nil =>
    intro _ hnew
    simp [addEntry, insertKey, gather_append, hnew (List.not_mem_nil _)]
  | cons k0 ks1 ih =>
    intro hnd hnew
    by_cases h : k0 = e.sessionId.getD ""
    · subst h
      have hk0 : e.sessionId.getD "" ∈ e.sessionId.getD "" :: ks1 :=
        List.mem_cons_self _ _
      rw [List.map_cons]
      simp only [addEntry, if_pos rfl, insertKey, if_pos hk0, List.map_cons]
      have hhead : gather l (e.sessionId.getD "") ++ [e] =
          gather (l ++ [e]) (e.sessionId.getD "") := by
        rw [gather_append, if_pos rfl]
      have htail : List.map (fun k => (k, gather l k)) ks1 =
          List.map (fun k => (k, gather (l ++ [e]) k)) ks1 :=
        List.map_congr_left (fun k hk => by
          have hne : e.sessionId.getD "" ≠ k := fun hkk =>
            (List.nodup_cons.mp hnd).1 (hkk ▸ hk)
          rw [gather_append, if_neg hne, List.append_nil])
      rw [hhead, htail]
      simp
    · have hne : e.sessionId.getD "" ≠ k0 := fun hkk => h hkk.symm
      rw [List.map_cons]
      simp only [addEntry, if_neg h]
      have hnew1 : e.sessionId.getD "" ∉ ks1 →
          gather l (e.sessionId.getD "") = [] := by
        intro hnot
        exact hnew (by simp [List.mem_cons, hne, hnot])
      rw [ih (List.nodup_cons.mp hnd).2 hnew1]
      by_cases hin : e.sessionId.getD "" ∈ ks1
      · have hin2 : e.sessionId.getD "" ∈ k0 :: ks1 :=
          List.mem_cons_of_mem k0 hin
        simp only [insertKey, if_pos hin, if_pos hin2, List.map_cons]
        rw [gather_append, if_neg hne, List.append_nil]
      · have hin2 : e.sessionId.getD "" ∉ k0 :: ks1 := by
          simp [List.mem_cons, hne, hin]
        simp only [insertKey, if_neg hin, if_neg hin2, List.cons_append,
          List.map_cons]
        rw [gather_append, if_neg hne, List.append_nil]

theorem groupBySession_eq (l : List Entry) :
    groupBySession l = (firstKeys l).map (fun k => (k, gather l k)) := by
  induction l using List.reverseRecOn with
  | nil => rfl
  | append_singleton l e ih =>
    rw [groupBySession_append, ih, firstKeys_append]
    exact addEntry_map_gather l e (firstKeys l) (firstKeys_nodup l)
      (gather_eq_nil_of_not_mem l _)

theorem sessions_mem (project_path : String) (entries : List Entry)
    (k : String) (v : List Entry)
    (h : (k, v) ∈ sessions project_path entries) :
    v = gather (project_entries project_path entries) k := by
  rw [sessions, groupBySession_eq] at h
  obtain ⟨k0, _, heq⟩ := List.mem_map.mp h
  cases heq
  rfl

theorem sessions_keys_nodup (project_path : String) (entries : List Entry) :
    ((sessions project_path entries).map Prod.fst).Nodup := by
  rw [sessions, groupBySession_eq, List.map_map]
  have h2 : ((firstKeys (project_entries project_path entries)).map
      (Prod.fst ∘ fun k => (k, gather (project_entries project_path entries) k))) =
      firstKeys (project_entries project_path entries) := by
    simp [Function.comp_def]
  rw [h2]
  exact firstKeys_nodup _

/-- C3: in all-sessions mode the records whose `project` (default `""`)
equals the given path are grouped by `sessionId` (default `""`): every
group of the `sessions` dict holds exactly the project records with its
key, keys are not repeated, each group is sorted ascending by timestamp
(missing timestamp as 0), the groups are ordered ascending by their minimum
timestamp with ties kept in first-seen key order (stability of the final
stable sort), and the printed lines are the concatenation of the per-group
lines in that group order — so all lines of a group with strictly smaller
minimum timestamp come before any line of a group with a larger one. -/
theorem all_sessions_output_spec (project_path : String)
    (fmtTime : Int → String) (entries : List Entry) :
    (all_sessions_mode project_path fmtTime entries =
      (sorted_sessions project_path entries).flatMap
        (fun g => g.2.filterMap (format_entry fmtTime))) ∧
    (∀ k v, (k, v) ∈ sessions project_path entries →
      v = gather (project_entries project_path entries) k) ∧
    ((sessions project_path entries).map Prod.fst).Nodup ∧
    (sorted_sessions project_path entries).Perm
      (sessionsSorted project_path entries) ∧
    (sorted_sessions project_path entries).Pairwise
      (fun g h => minKey g ≤ minKey h) ∧
    (∀ g h, minKey g ≤ minKey h →
      List.Sublist [g, h] (sessionsSorted project_path entries) →
      List.Sublist [g, h] (sorted_sessions project_path entries)) ∧
    (∀ k v, (k, v) ∈ sorted_sessions project_path entries →
      v.Perm (gather (project_entries project_path entries) k) ∧
      v.Pairwise (fun a b => tsKey a ≤ tsKey b)) := by
  refine ⟨?_, sessions_mem project_path entries,
    sessions_keys_nodup project_path entries, ?_, ?_, ?_, ?_⟩
  · by_cases hpe : (project_entries project_path entries).isEmpty
    · have hnil : project_entries project_path entries = [] :=
        List.isEmpty_iff.mp hpe
      simp [all_sessions_mode, hpe, sorted_sessions, sessionsSorted, sessions,
        hnil, groupBySession]
    · simp [all_sessions_mode, hpe]
  · exact List.mergeSort_perm (sessionsSorted project_path entries) groupLE
  · exact (List.sorted_mergeSort groupLE_trans groupLE_total
      (sessionsSorted project_path entries)).imp
      (fun hab => by simpa [groupLE] using hab)
  · intro g h hle hsub
    exact List.pair_sublist_mergeSort groupLE_trans groupLE_total
      (by simpa [groupLE] using hle) hsub
  · intro k v hkv
    have hmem : (k, v) ∈ sessionsSorted project_path entries :=
      ((List.mergeSort_perm (sessionsSorted project_path entries)
        groupLE).mem_iff).mp hkv
    obtain ⟨g0, hg0, heq⟩ := List.mem_map.mp hmem
    obtain ⟨k0, v0⟩ := g0
    cases heq
    have hv0 : v0 = gather (project_entries project_path entries) k0 :=
      sessions_mem project_path entries k0 v0 hg0
    constructor
    · rw [← hv0]
      exact List.mergeSort_perm v0 tsLE
    · exact (List.sorted_mergeSort tsLE_trans tsLE_total v0).imp
        (fun hab => by simpa [tsLE] using hab)

/-- Witness for C3: with two sessions of project `/p`, the `s1` group of
the grouping dict holds exactly the `s1` records of the project. -/
theorem all_sessions_output_spec_witness :
    [entScn] = gather (project_entries "/p" [entScn, entB]) "s1" :=
  (all_sessions_output_spec "/p" fmtT [entScn, entB]).2.1 "s1" [entScn]
    (by decide)

theorem load_entries_filterMap (json_loads : String → Option J)
    (lines : List String) :
    load_entries json_loads (some lines) =
      lines.filterMap (fun line =>
        if strip line = "" then none else json_loads (strip line)) := by
  suffices h : ∀ acc : List J,
      lines.foldl
        (fun entries line =>
          let stripped := strip line
          if stripped = "" then entries
          else
            match json_loads stripped with
            | some entry => entries ++ [entry]
            | none => entries)
        acc =
      acc ++ lines.filterMap (fun line =>
        if strip line = "" then none else json_loads (strip line)) by
    simpa [load_entries] using h []
  induction lines with
  | nil => simp
  | cons l ls ih =>
    intro acc
    simp only [List.foldl_cons, List.filterMap_cons]
    by_cases h0 : strip l = ""
    · simp [h0, ih]
    · cases hj : json_loads (strip l) with
      | none => simp [h0, hj, ih]
      | some v => simp [h0, hj, ih, List.append_assoc]

/-- C5 (amended): a line the JSON parser cannot parse is silently skipped by
the loader and never causes the run to fail — removing such a line from the
file leaves the loaded sequence unchanged — and the loaded sequence is
exactly the successfully parsed values of the non-blank stripped lines, in
file order.  (The loader does not check that a parsed value is a record:
a valid-JSON non-record line is kept, not skipped.) -/
theorem load_entries_malformed_spec (json_loads : String → Option J)
    (pre post : List String) (bad : String)
    (hbad : json_loads (strip bad) = none) :
    load_entries json_loads (some (pre ++ bad :: post)) =
      load_entries json_loads (some (pre ++ post)) ∧
    (∀ lines : List String, load_entries json_loads (some lines) =
      lines.filterMap (fun line =>
        if strip line = "" then none else json_loads (strip line))) := by
  constructor
  · rw [load_entries_filterMap, load_entries_filterMap,
      List.filterMap_append, List.filterMap_append, List.filterMap_cons]
    by_cases h0 : strip bad = "" <;> simp [h0, hbad]
  · exact load_entries_filterMap json_loads

/-- A parser agreeing with `json.loads` on the single line exercised by the
counterexample: `json.loads("5")` succeeds and yields the number 5. -/
def demoLoads : String → Option J :=
  fun s => if s = "5" then some (J.num 5) else none

/-- C5 counterexample: the line `5` is valid JSON but not a record
(`json.loads` yields the integer 5); the loader does not skip it — it is
appended to the loaded sequence, where any later field access on it would
raise `AttributeError` and abort the run. -/
theorem load_entries_nonrecord_cex :
    load_entries demoLoads (some ["5"]) = [J.num 5] := rfl

/-- Witness for C5: a log of one valid line and one unparseable line loads
the same sequence as the log without the unparseable line. -/
theorem load_entries_malformed_spec_witness :
    load_entries demoLoads (some (["5"] ++ "x" :: [])) =
      load_entries demoLoads (some (["5"] ++ [])) ∧
    (∀ lines : List String, load_entries demoLoads (some lines) =
      lines.filterMap (fun line =>
        if strip line = "" then none else demoLoads (strip line))) :=
  load_entries_malformed_spec demoLoads ["5"] [] "x" rfl

/-- A conversion agreeing with Python`s `int(...)` on the single argument
exercised by the C8 witness. -/
def demoInt : String → Option Int :=
  fun s => if s = "0" then some 0 else none

/-- C8: when the log file does not exist the loader produces an empty
sequence rather than an error; on an empty sequence both modes print
nothing, and the entry point exits with code 0 in both modes. -/
theorem missing_file_spec (json_loads : String → Option J)
    (start_ts_ms : Int) (project_path : String) (fmtTime : Int → String)
    (int_of : String → Option Int) (arg1 : String)
    (hint : int_of arg1 = some start_ts_ms) :
    load_entries json_loads none = [] ∧
    single_session_mode start_ts_ms project_path fmtTime [] = [] ∧
    all_sessions_mode project_path fmtTime [] = [] ∧
    (main int_of fmtTime [arg1, project_path] []).exitCode = 0 ∧
    (main int_of fmtTime [arg1, project_path] []).outLines = [] ∧
    (main int_of fmtTime ["--all", project_path] []).exitCode = 0 ∧
    (main int_of fmtTime ["--all", project_path] []).outLines = [] := by
  refine ⟨rfl, rfl, rfl, ?_, ?_, rfl, rfl⟩ <;>
    by_cases h : arg1 = "--all" <;>
      simp [main, h, hint, all_sessions_mode, single_session_mode,
        project_entries, targetSession]

/-- Witness for C8: concrete invocations `0 /p` and `--all /p` on a missing
file exit 0 and print nothing. -/
theorem missing_file_spec_witness :
    load_entries demoLoads none = [] ∧
    single_session_mode 0 "/p" fmtT [] = [] ∧
    all_sessions_mode "/p" fmtT [] = [] ∧
    (main demoInt fmtT ["0", "/p"] []).exitCode = 0 ∧
    (main demoInt fmtT ["0", "/p"] []).outLines = [] ∧
    (main demoInt fmtT ["--all", "/p"] []).exitCode = 0 ∧
    (main demoInt fmtT ["--all", "/p"] []).outLines = [] :=
  missing_file_spec demoLoads 0 "/p" fmtT demoInt "0" rfl

end ClaudeHistory
